import Mathlib

/-! Verification development for the polymarket-bot cross-market arbitrage
scanners.

Two implementations are embedded from the repository:

* namespace `SScan` models `scripts/scan_arbs.py`: strike/direction
  extraction from `group_item_title` / `question`, the monotonicity scanner,
  the range-sum scanner, the per-strike cross-date comparison, and the final
  severity/spread ordering of findings used in `main`.
* namespace `RScan` models `scan_arbs.py` at the project root: market
  normalization (`parse_market`), numeric token parsing (`parse_price`),
  deadline parsing (`parse_deadline`), and the threshold, dip, flat-pricing,
  spread-compression and timeline scanners.

Probabilities and dollar amounts are embedded as exact rationals.  Python
exceptions that can escape a function are modelled with `Except Unit` (an
`error` value is a raised exception) or, inside `parse_market`, with
`Option` (the surrounding `try/except` turns any exception into `None`).
Formatted report strings (`description`, `risk_note`, `action.buy`,
`action.sell`, `action.edge`) are float presentation only and are omitted
from the embedded finding records; every field that the scanners, the
severity assignment or the final ordering consume is kept.
-/

deriving instance DecidableEq for Except

/-- Whitespace test used for the regex class `\s`. -/
def isWs (c : Char) : Bool := c.isWhitespace

/-- Character class `[\d,]` used by the strike regexes. -/
def isDigitComma (c : Char) : Bool := c.isDigit || c = ','

/-- Character class `[\w]` (ASCII word characters). -/
def isWordChar (c : Char) : Bool := c.isAlphanum || c = '_'

/-- Character class `[\w\s,]` used by the deadline regex. -/
def isWordWsComma (c : Char) : Bool := isWordChar c || isWs c || c = ','

/-- Numeric value of a digit string. -/
def natOfDigits (l : List Char) : ℕ :=
  l.foldl (fun n c => 10 * n + (c.toNat - 48)) 0

/-- Value of Python `float(s)` on a string expected to be decimal digits:
`none` models the `ValueError` raised on the empty string (or any
non-digit residue). -/
def digitsToQ (l : List Char) : Option ℚ :=
  if l ≠ [] ∧ l.all Char.isDigit then some ((natOfDigits l : ℕ) : ℚ) else none

/-- Python `str.strip()`. -/
def trimChars (l : List Char) : List Char :=
  ((l.dropWhile isWs).reverse.dropWhile isWs).reverse

/-- Match a literal character sequence at the head of the input. -/
def stripPrefixChars : List Char → List Char → Option (List Char)
  | [], l => some l
  | _ :: _, [] => none
  | p :: ps, c :: cs => if p = c then stripPrefixChars ps cs else none

/-- Match a literal character sequence case-insensitively at the head. -/
def stripCIChars : List Char → List Char → Option (List Char)
  | [], l => some l
  | _ :: _, [] => none
  | p :: ps, c :: cs => if p.toLower = c.toLower then stripCIChars ps cs else none

/-- `re.search` driver: try the matcher at every start position, leftmost
success wins. -/
def searchPos (f : List Char → Option α) : List Char → Option α
  | [] => f []
  | c :: cs =>
    match f (c :: cs) with
    | some x => some x
    | none => searchPos f cs

/-- Adjacent pairs `(l[i], l[i+1])`, the shape of every
`for i in range(len(l) - 1)` loop in the scanners. -/
def adjPairs : List α → List (α × α)
  | x :: y :: rest => (x, y) :: adjPairs (y :: rest)
  | _ => []

/-- All pairs `(l[i], l[j])` with `i < j`, the shape of the double loop in
`scan_cross_date`. -/
def allPairs : List α → List (α × α)
  | [] => []
  | x :: xs => xs.map (fun y => (x, y)) ++ allPairs xs

/-- Keys of a Python dict built by repeated `setdefault`, in first-insertion
order. -/
def firstKeys [DecidableEq κ] (l : List κ) : List κ :=
  l.foldl (fun acc k => if k ∈ acc then acc else acc ++ [k]) []

/-- Lexicographic code-point comparison of character lists: the order
Python uses to compare the date strings in `entries.sort`. -/
def charsLe : List Char → List Char → Bool
  | [], _ => true
  | _ :: _, [] => false
  | c :: cs, d :: ds => if c < d then true else if d < c then false else charsLe cs ds

/-- `groups.setdefault(key, []).append(m)` grouping: the dict items in key
insertion order, each group in original list order. -/
def groupPass [DecidableEq κ] (key : α → κ) (l : List α) : List (κ × List α) :=
  (firstKeys (l.map key)).map (fun k => (k, l.filter (fun a => decide (key a = k))))

namespace SScan

/-- Raw market record consumed by the scanners of `scripts/scan_arbs.py`:
the fields of the snapshot dict that they read.  `group_item_title` is
`none` when the JSON field is null; `odds_yes` is `m["odds"].get("Yes")`;
`liquidity` and `volume_24h` are `none` when null (the code reads them as
`m.get(..., 0) or 0`). -/
structure RawSM where
  group_item_title : Option String
  question : String
  odds_yes : Option ℚ
  liquidity : Option ℚ
  volume_24h : Option ℚ
  market_id : String
deriving DecidableEq

/-- Strike value returned by `extract_strike`: Python `None`, a float, or a
`(low, high)` tuple. -/
inductive StrikeVal
  | nostrike
  | num (v : ℚ)
  | rng (lo hi : ℚ)
deriving DecidableEq

/-- `float(group.replace(",", ""))` for a group matched by `[\d,]+`: raises
(modelled as `error`) exactly when the group contains no digit. -/
def pyFloatGroup (g : List Char) : Except Unit ℚ :=
  match digitsToQ (g.filter (fun c => c ≠ ',')) with
  | some v => .ok v
  | none => .error ()

/-- `re.match(r'[↑↓]\s*([\d,]+)', text)`; on success the direction is
`"above"` iff the character `↑` occurs anywhere in `text`. -/
def matchArrow (text : List Char) : Option (String × List Char) :=
  match text with
  | c :: rest =>
    if c = '↑' ∨ c = '↓' then
      let g := (rest.dropWhile isWs).takeWhile isDigitComma
      if g = [] then none
      else some ((if (c :: rest).contains '↑' then "above" else "below"), g)
    else none
  | [] => none

/-- `re.match(r'^([\d,]+)$', text)`. -/
def matchPlain (text : List Char) : Option (List Char) :=
  if text ≠ [] ∧ text.all isDigitComma then some text else none

/-- `re.match(r'>([\d,]+)', text)`. -/
def matchGt (text : List Char) : Option (List Char) :=
  match text with
  | '>' :: rest =>
    let g := rest.takeWhile isDigitComma
    if g = [] then none else some g
  | _ => none

/-- `re.match(r'([\d,]+)-([\d,]+)', text)`. -/
def matchRangePair (text : List Char) : Option (List Char × List Char) :=
  let g1 := text.takeWhile isDigitComma
  if g1 = [] then none
  else
    match text.drop g1.length with
    | '-' :: rest2 =>
      let g2 := rest2.takeWhile isDigitComma
      if g2 = [] then none else some (g1, g2)
    | _ => none

/-- One attempt of `re.search(r'<key>\s*\$?([\d,]+)', q)` at a fixed start
position. -/
def tryKeyNumAt (key : List Char) (l : List Char) : Option (List Char) :=
  match stripPrefixChars key l with
  | none => none
  | some r1 =>
    let r2 := r1.dropWhile isWs
    let r3 := match r2 with
      | '$' :: t => t
      | _ => r2
    let g := r3.takeWhile isDigitComma
    if g = [] then none else some g

/-- One attempt of `re.search(r'dip\s+to\s*\$?([\d,]+)', q)` at a fixed
start position. -/
def tryDipToAt (l : List Char) : Option (List Char) :=
  match stripPrefixChars ['d', 'i', 'p'] l with
  | none => none
  | some r1 =>
    let w := r1.takeWhile isWs
    if w = [] then none
    else
      match stripPrefixChars ['t', 'o'] (r1.drop w.length) with
      | none => none
      | some r2 =>
        let r3 := r2.dropWhile isWs
        let r4 := match r3 with
          | '$' :: t => t
          | _ => r3
        let g := r4.takeWhile isDigitComma
        if g = [] then none else some g

/-- `extract_strike(group_title, question)` from `scripts/scan_arbs.py`.
Returns the `(direction, strike)` pair; an `error` value models the
`ValueError` that `float("")` raises when a matched `[\d,]+` group consists
of commas only. -/
def extract_strike (group_title question : Option String) :
    Except Unit (String × StrikeVal) :=
  if group_title.getD "" = "" ∧ question.getD "" = "" then .ok ("unknown", .nostrike)
  else
    let text := trimChars (group_title.getD "").data
    match matchArrow text with
    | some (dir, g) => (pyFloatGroup g).map (fun v => (dir, .num v))
    | none =>
    match matchPlain text with
    | some g => (pyFloatGroup g).map (fun v => ("above", .num v))
    | none =>
    match matchGt text with
    | some g => (pyFloatGroup g).map (fun v => ("above", .num v))
    | none =>
    match matchRangePair text with
    | some (g1, g2) => do
        let lo ← pyFloatGroup g1
        let hi ← pyFloatGroup g2
        pure ("range", .rng lo hi)
    | none =>
      let q := (question.getD "").data.map Char.toLower
      match searchPos (tryKeyNumAt ['a', 'b', 'o', 'v', 'e']) q with
      | some g => (pyFloatGroup g).map (fun v => ("above", .num v))
      | none =>
      match searchPos (tryKeyNumAt ['r', 'e', 'a', 'c', 'h']) q with
      | some g => (pyFloatGroup g).map (fun v => ("above", .num v))
      | none =>
      match searchPos tryDipToAt q with
      | some g => (pyFloatGroup g).map (fun v => ("below", .num v))
      | none => .ok ("unknown", .nostrike)

/-- Entry dict built by `scan_monotonicity` for each qualifying market
(`clob_tokens`, copied verbatim and never read, is omitted). -/
structure MEntry where
  strike : ℚ
  yes_odds : ℚ
  market_id : String
  question : String
  liquidity : ℚ
  volume_24h : ℚ
deriving DecidableEq

/-- Bucket dict built by `scan_range_sums` for a range or overflow market. -/
structure BEntry where
  direction : String
  strike : StrikeVal
  yes_odds : ℚ
  question : String
  market_id : String
  liquidity : ℚ
deriving DecidableEq

/-- Entry dict built by `scan_cross_date` for a dated same-strike market. -/
structure CDEntry where
  date : String
  event : String
  yes_odds : ℚ
  market_id : String
  question : String
  liquidity : ℚ
  volume_24h : ℚ
deriving DecidableEq

/-- Scanner-specific fields of a finding dict. -/
inductive FPayload
  | mono (subtype : String) (market_a market_b : MEntry)
  | rangeSum (total overshoot : ℚ) (strategy : String) (buckets : List BEntry)
  | crossDate (strike : ℚ) (market_a market_b : CDEntry)
deriving DecidableEq

/-- A finding dict of `scripts/scan_arbs.py`.  `spread` is `none` when the
dict has no `"spread"` key (range-sum findings), matching the
`f.get("spread", 0)` read in the final ordering. -/
structure Finding where
  ftype : String
  severity : String
  event : String := ""
  spread : Option ℚ := none
  payload : FPayload
deriving DecidableEq

/-- The entry-collection loop of `scan_monotonicity`: returns the `above`
and `below` entry lists. -/
def collectMono (minLiq : ℚ) : List RawSM → Except Unit (List MEntry × List MEntry)
  | [] => .ok ([], [])
  | m :: rest => do
    let ds ← extract_strike m.group_item_title (some m.question)
    let (abv, blw) ← collectMono minLiq rest
    match ds with
    | (dir, .num strike) =>
      match m.odds_yes with
      | none => .ok (abv, blw)
      | some y =>
        let liq := m.liquidity.getD 0
        if liq < minLiq then .ok (abv, blw)
        else
          let e : MEntry := ⟨strike, y, m.market_id, m.question, liq, m.volume_24h.getD 0⟩
          if dir = "above" then .ok (e :: abv, blw)
          else if dir = "below" then .ok (abv, e :: blw)
          else .ok (abv, blw)
    | _ => .ok (abv, blw)

/-- The monotonicity-violation finding dict for an adjacent entry pair. -/
def monoFinding (subtype event_title : String) (a b : MEntry) : Finding :=
  let s := b.yes_odds - a.yes_odds
  { ftype := "monotonicity_violation"
    severity := if s > 1/50 then "HIGH" else if s > 1/200 then "MEDIUM" else "LOW"
    event := event_title
    spread := some s
    payload := .mono subtype a b }

/-- `sort(key=lambda x: x["strike"])` (Python sorts are stable; a stable
insertion sort computes the same list). -/
def sortStrikeAsc (l : List MEntry) : List MEntry :=
  List.insertionSort (fun a b => a.strike ≤ b.strike) l

/-- `sort(key=lambda x: x["strike"], reverse=True)`. -/
def sortStrikeDesc (l : List MEntry) : List MEntry :=
  List.insertionSort (fun a b => b.strike ≤ a.strike) l

/-- The adjacent-pair walk over one sorted series in `scan_monotonicity`. -/
def monoPairs (subtype event_title : String) (l : List MEntry) : List Finding :=
  (adjPairs l).filterMap (fun p =>
    if p.1.yes_odds < p.2.yes_odds then some (monoFinding subtype event_title p.1 p.2)
    else none)

/-- `scan_monotonicity(event_markets, event_title, min_liquidity)`. -/
def scan_monotonicity (ms : List RawSM) (event_title : String) (minLiq : ℚ) :
    Except Unit (List Finding) :=
  match collectMono minLiq ms with
  | .error e => .error e
  | .ok (abv, blw) =>
    .ok (monoPairs "above" event_title (sortStrikeAsc abv)
         ++ monoPairs "below" event_title (sortStrikeDesc blw))

/-- The bucket-collection loop of `scan_range_sums`: range buckets in list
order, and the last `>`-prefixed overflow bucket if any.  The `error` case
additionally covers the `AttributeError` of `gt.startswith(">")` when the
market reached the overflow branch with a null `group_item_title`. -/
def collectRange (minLiq : ℚ) : List RawSM → Except Unit (List BEntry × Option BEntry)
  | [] => .ok ([], none)
  | m :: rest => do
    let ds ← extract_strike m.group_item_title (some m.question)
    let contrib : Except Unit (Option BEntry × Option BEntry) :=
      match m.odds_yes with
      | none => .ok (none, none)
      | some y =>
        let liq := m.liquidity.getD 0
        if liq < minLiq then .ok (none, none)
        else
          match ds with
          | ("range", .rng lo hi) =>
            .ok (some ⟨"range", .rng lo hi, y, m.question, m.market_id, liq⟩, none)
          | ("above", .num v) =>
            match m.group_item_title with
            | none => .error ()
            | some gt =>
              match gt.data with
              | '>' :: _ =>
                .ok (none, some ⟨"overflow", .num v, y, m.question, m.market_id, liq⟩)
              | _ => .ok (none, none)
          | _ => .ok (none, none)
    let (rOpt, oOpt) ← contrib
    let (rs, ov) ← collectRange minLiq rest
    .ok (rOpt.toList ++ rs, ov.orElse (fun _ => oOpt))

/-- The single range-sum finding, given the collected buckets. -/
def rangeSumFinding (event_title : String) (all_buckets : List BEntry) : Finding :=
  { ftype := "range_sum_violation"
    severity := if |(all_buckets.map BEntry.yes_odds).sum - 1| > 1/10 then "HIGH"
                else "MEDIUM"
    event := event_title
    spread := none
    payload := .rangeSum (all_buckets.map BEntry.yes_odds).sum
      ((all_buckets.map BEntry.yes_odds).sum - 1)
      (if (all_buckets.map BEntry.yes_odds).sum > 1 then "sell all YES" else "buy all YES")
      all_buckets }

/-- The bucket total `total = sum(rm["yes_odds"] for rm in all_buckets)`
over the collected range buckets plus the optional overflow bucket. -/
def bucketsTotal (rs : List BEntry) (ov : Option BEntry) : ℚ :=
  ((rs ++ ov.toList).map BEntry.yes_odds).sum

/-- `scan_range_sums(event_markets, event_title, min_liquidity)`. -/
def scan_range_sums (ms : List RawSM) (event_title : String) (minLiq : ℚ) :
    Except Unit (List Finding) :=
  match collectRange minLiq ms with
  | .error e => .error e
  | .ok (rms, ov) =>
    if rms.length < 2 then .ok []
    else if |bucketsTotal rms ov - 1| > 1/20 then
      .ok [rangeSumFinding event_title (rms ++ ov.toList)]
    else .ok []

/-- The `action.strategy` field of a range-sum finding (empty for the other
finding kinds, which carry no strategy). -/
def strategyOf (f : Finding) : String :=
  match f.payload with
  | .rangeSum _ _ s _ => s
  | _ => ""

/-- The cross-date-divergence finding dict for an entry pair. -/
def cdFinding (strike : ℚ) (a b : CDEntry) : Finding :=
  { ftype := "cross_date_divergence"
    severity := "INFO"
    spread := some |a.yes_odds - b.yes_odds|
    payload := .crossDate strike a b }

/-- `entries.sort(key=lambda x: x["date"])` (stable; Python compares the
date strings lexicographically by code point). -/
def sortByDateStr (l : List CDEntry) : List CDEntry :=
  List.insertionSort (fun a b => charsLe a.date.data b.date.data = true) l

/-- The per-strike body of `scan_cross_date`: with fewer than two entries
the strike is skipped, otherwise every pair `(i, j)`, `i < j`, of the
date-sorted entries is compared. -/
def cross_date_pairs (strike : ℚ) (entries : List CDEntry) : List Finding :=
  if entries.length < 2 then []
  else
    (allPairs (sortByDateStr entries)).filterMap (fun p =>
      if |p.1.yes_odds - p.2.yes_odds| > 3/20 then some (cdFinding strike p.1 p.2)
      else none)

/-- `severity_order.get(f.get("severity", "INFO"), 9)` from `main`. -/
def severity_order (s : String) : ℕ :=
  if s = "HIGH" then 0 else if s = "MEDIUM" then 1 else if s = "LOW" then 2
  else if s = "INFO" then 3 else 9

/-- `f.get("spread", 0)` from the sort key in `main`. -/
def spreadVal (f : Finding) : ℚ := f.spread.getD 0

/-- The sort-key order of
`all_findings.sort(key=lambda f: (severity_order.get(...), -f.get("spread", 0)))`. -/
def rankLE (f g : Finding) : Prop :=
  severity_order f.severity < severity_order g.severity ∨
    (severity_order f.severity = severity_order g.severity ∧ spreadVal g ≤ spreadVal f)

instance : DecidableRel rankLE := fun f g => by unfold rankLE; infer_instance

instance : IsTotal Finding rankLE :=
  ⟨fun a b => by
    unfold rankLE
    rcases lt_trichotomy (severity_order a.severity) (severity_order b.severity) with h | h | h
    · exact Or.inl (Or.inl h)
    · rcases le_total (spreadVal b) (spreadVal a) with h2 | h2
      · exact Or.inl (Or.inr ⟨h, h2⟩)
      · exact Or.inr (Or.inr ⟨h.symm, h2⟩)
    · exact Or.inr (Or.inl h)⟩

instance : IsTrans Finding rankLE :=
  ⟨fun a b c hab hbc => by
    unfold rankLE at *
    rcases hab with h1 | h1
    · rcases hbc with h2 | h2
      · exact Or.inl (h1.trans h2)
      · exact Or.inl (h2.1 ▸ h1)
    · rcases hbc with h2 | h2
      · exact Or.inl (h1.1 ▸ h2)
      · exact Or.inr ⟨h1.1.trans h2.1, h2.2.trans h1.2⟩⟩

/-- The final ordering pass of `main` (Python `list.sort` is stable; a
stable insertion sort over the same key order computes the same list). -/
def sort_findings (fs : List Finding) : List Finding :=
  List.insertionSort rankLE fs

end SScan

namespace RScan

/-- The `Market` dataclass of `scan_arbs.py`. -/
structure Market where
  question : String
  yes_price : ℚ
  no_price : ℚ
  event_title : String
  market_id : String := ""
  slug : String := ""
  volume : ℚ := 0
  liquidity : ℚ := 0
  end_date : String := ""
  threshold : Option ℚ := none
  direction : String := ""
  deadline : String := ""
  active : Bool := true
deriving DecidableEq

/-- The `ArbOpportunity` dataclass (the formatted `description` and
`risk_note` strings are presentation only and omitted). -/
structure ArbOpportunity where
  arb_type : String
  market_a : Market
  market_b : Market
  margin : ℚ
  confidence : String
deriving DecidableEq

/-- `parse_price(s)`: strip thousands separators, lowercase, apply a
trailing `k` multiplier; `none` models the `ValueError` of `float` when no
digits remain. -/
def parse_price (s : String) : Option ℚ :=
  let t := (s.data.map Char.toLower).filter (fun c => c ≠ ',')
  match t.getLast? with
  | some 'k' => (digitsToQ t.dropLast).map (fun v => v * 1000)
  | _ => digitsToQ t

/-- One attempt of `re.search(r'(?:reach|hit)\s+\$?([\d,]+(?:k)?)', q, re.I)`
at a fixed start position, on the lowercased question. -/
def tryReachHitAt (l : List Char) : Option (List Char) :=
  let after :=
    match stripPrefixChars ['r', 'e', 'a', 'c', 'h'] l with
    | some r => some r
    | none => stripPrefixChars ['h', 'i', 't'] l
  match after with
  | none => none
  | some r1 =>
    let w := r1.takeWhile isWs
    if w = [] then none
    else
      let r2 := r1.drop w.length
      let r3 := match r2 with
        | '$' :: t => t
        | _ => r2
      let g := r3.takeWhile isDigitComma
      if g = [] then none
      else
        match r3.drop g.length with
        | 'k' :: _ => some (g ++ ['k'])
        | _ => some g

/-- One attempt of `re.search(r'dip\s+to\s+\$?([\d,]+(?:k)?)', q, re.I)` at
a fixed start position, on the lowercased question. -/
def tryDipNumAt (l : List Char) : Option (List Char) :=
  match stripPrefixChars ['d', 'i', 'p'] l with
  | none => none
  | some r1 =>
    let w1 := r1.takeWhile isWs
    if w1 = [] then none
    else
      match stripPrefixChars ['t', 'o'] (r1.drop w1.length) with
      | none => none
      | some r2 =>
        let w2 := r2.takeWhile isWs
        if w2 = [] then none
        else
          let r3 := r2.drop w2.length
          let r4 := match r3 with
            | '$' :: t => t
            | _ => r3
          let g := r4.takeWhile isDigitComma
          if g = [] then none
          else
            match r4.drop g.length with
            | 'k' :: _ => some (g ++ ['k'])
            | _ => some g

/-- One attempt of `re.search(r'by\s+([\w\s,]+\d{4})', question, re.I)` at a
fixed start position: after `by` and at least one whitespace character
(consumed greedily by `\s+`), the greedy group is the run of `[\w\s,]`
characters ending at the rightmost 4-digit window that leaves the
`[\w\s,]+` part nonempty. -/
def tryByAt (l : List Char) : Option (List Char) :=
  match stripCIChars ['b', 'y'] l with
  | none => none
  | some r =>
    let t := r.takeWhile isWordWsComma
    let lead := (t.takeWhile isWs).length
    if lead = 0 then none
    else
      let ps := (List.range (t.length + 1)).filter (fun p =>
        2 ≤ p ∧ p + 4 ≤ t.length ∧ ((t.drop p).take 4).all Char.isDigit)
      match ps.max? with
      | none => none
      | some p => some ((t.drop (min lead (p - 1))).take (p + 4 - min lead (p - 1)))

/-- A parsed `datetime.date`. -/
structure PDate where
  year : ℕ
  month : ℕ
  day : ℕ
deriving DecidableEq

def monthsFull : List (List Char × ℕ) :=
  [("january".data, 1), ("february".data, 2), ("march".data, 3), ("april".data, 4),
   ("may".data, 5), ("june".data, 6), ("july".data, 7), ("august".data, 8),
   ("september".data, 9), ("october".data, 10), ("november".data, 11),
   ("december".data, 12)]

def monthsAbbr : List (List Char × ℕ) :=
  [("jan".data, 1), ("feb".data, 2), ("mar".data, 3), ("apr".data, 4), ("may".data, 5),
   ("jun".data, 6), ("jul".data, 7), ("aug".data, 8), ("sep".data, 9), ("oct".data, 10),
   ("nov".data, 11), ("dec".data, 12)]

/-- Match a (full or abbreviated) month name case-insensitively, as the
`%B` / `%b` directive does. -/
def matchMonthName : List (List Char × ℕ) → List Char → Option (ℕ × List Char)
  | [], _ => none
  | (nm, k) :: rest, l =>
    match stripCIChars nm l with
    | some r => some (k, r)
    | none => matchMonthName rest l

def digitVal (c : Char) : ℕ := c.toNat - 48

/-- The `%d` directive `(3[01]|[12]\d|0[1-9]|[1-9])`: a two-digit day when
the two digits fit one of the two-digit alternatives, else one digit. -/
def matchDay : List Char → Option (ℕ × List Char)
  | c1 :: c2 :: rest =>
    if c1.isDigit ∧ c2.isDigit then
      if (c1 = '3' ∧ (c2 = '0' ∨ c2 = '1')) ∨ c1 = '1' ∨ c1 = '2' ∨ (c1 = '0' ∧ c2 ≠ '0') then
        some (10 * digitVal c1 + digitVal c2, rest)
      else if c1 ≠ '0' then some (digitVal c1, c2 :: rest)
      else none
    else if c1.isDigit ∧ c1 ≠ '0' then some (digitVal c1, c2 :: rest)
    else none
  | [c1] => if c1.isDigit ∧ c1 ≠ '0' then some (digitVal c1, []) else none
  | [] => none

/-- The `%Y` directive: exactly four digits. -/
def matchYear4 (l : List Char) : Option (ℕ × List Char) :=
  let g := l.take 4
  if g.length = 4 ∧ g.all Char.isDigit then some (natOfDigits g, l.drop 4) else none

def isLeapYear (y : ℕ) : Bool := y % 4 == 0 && (y % 100 != 0 || y % 400 == 0)

def daysInMonth (m y : ℕ) : ℕ :=
  if m = 2 then (if isLeapYear y then 29 else 28)
  else if m = 4 ∨ m = 6 ∨ m = 9 ∨ m = 11 then 30
  else 31

/-- `datetime.strptime(s, fmt).date()` for the formats used by
`parse_deadline`: month name, whitespace, day, an optional comma literal,
whitespace, 4-digit year, end of string, then the calendar validation the
`date` constructor performs. -/
def tryFmt (names : List (List Char × ℕ)) (comma : Bool) (l : List Char) : Option PDate :=
  match matchMonthName names l with
  | none => none
  | some (mon, r1) =>
    let w1 := r1.takeWhile isWs
    if w1 = [] then none
    else
      match matchDay (r1.drop w1.length) with
      | none => none
      | some (day, r3) =>
        let r4 : Option (List Char) :=
          if comma then
            match r3 with
            | ',' :: t => some t
            | _ => none
          else some r3
        match r4 with
        | none => none
        | some r4v =>
          let w2 := r4v.takeWhile isWs
          if w2 = [] then none
          else
            match matchYear4 (r4v.drop w2.length) with
            | none => none
            | some (yr, r6) =>
              if r6 = [] ∧ 1 ≤ yr ∧ day ≤ daysInMonth mon yr then some ⟨yr, mon, day⟩
              else none

/-- One attempt of `re.search(r'(\w+)\s+(\d+),?\s+(\d{4})', deadline_str)`
at a fixed start position, returning the three groups. -/
def tryFallbackAt (l : List Char) : Option (List Char × List Char × List Char) :=
  let g1 := l.takeWhile isWordChar
  if g1 = [] then none
  else
    let r1 := l.drop g1.length
    let w1 := r1.takeWhile isWs
    if w1 = [] then none
    else
      let r2 := r1.drop w1.length
      let g2 := r2.takeWhile Char.isDigit
      if g2 = [] then none
      else
        let r3 := r2.drop g2.length
        let r4 := match r3 with
          | ',' :: t => t
          | _ => r3
        let w2 := r4.takeWhile isWs
        if w2 = [] then none
        else
          let g3 := (r4.drop w2.length).take 4
          if g3.length = 4 ∧ g3.all Char.isDigit then some (g1, g2, g3) else none

/-- `parse_deadline(deadline_str)` from `scan_arbs.py`: the three `strptime`
formats on the stripped string, then the regex fallback reassembled as
`"{g1} {g2}, {g3}"` and parsed with `%B %d, %Y`. -/
def parse_deadline (s : String) : Option PDate :=
  let t := trimChars s.data
  match tryFmt monthsFull true t with
  | some d => some d
  | none =>
  match tryFmt monthsFull false t with
  | some d => some d
  | none =>
  match tryFmt monthsAbbr true t with
  | some d => some d
  | none =>
  match searchPos tryFallbackAt s.data with
  | some (g1, g2, g3) => tryFmt monthsFull true (g1 ++ [' '] ++ g2 ++ [',', ' '] ++ g3)
  | none => none

/-- A raw market record as read by `parse_market`: `outcomePrices` is the
decoded price list with each entry `none` when `float()` on it would raise.
A record whose `outcomePrices` string fails JSON decoding takes the same
exception path as an unconvertible entry and is modelled by a `none` entry.
`volume` and `liquidity` are taken as well-formed numbers per the snapshot
schema. -/
structure RawMarket where
  question : String := ""
  outcomePrices : List (Option ℚ) := []
  event_title : String := ""
  id : String := ""
  slug : String := ""
  volume : ℚ := 0
  liquidity : ℚ := 0
  end_date : String := ""
  active : Bool := true
deriving DecidableEq

/-- The deadline regex pass of `parse_market`
(`re.search(r'by\s+([\w\s,]+\d{4})', question, re.I)`, group stripped). -/
def extractDeadline (q : String) : String :=
  match searchPos tryByAt q.data with
  | some g => String.mk (trimChars g)
  | none => ""

/-- `parse_market(raw)` from `scan_arbs.py`: the surrounding `try/except`
maps any internal exception (an unconvertible price, or a threshold token
whose `parse_price` raises) to `None`. -/
def parse_market (raw : RawMarket) : Option Market :=
  match raw.outcomePrices with
  | p0 :: p1 :: _ =>
    match p0, p1 with
    | some yes, some no =>
      if (yes = 0 ∧ no = 1) ∨ (yes = 1 ∧ no = 0) then none
      else
        let q := raw.question
        let ql := q.data.map Char.toLower
        let base : Market :=
          { question := q, yes_price := yes, no_price := no,
            event_title := raw.event_title, market_id := raw.id, slug := raw.slug,
            volume := raw.volume, liquidity := raw.liquidity, end_date := raw.end_date,
            threshold := none, direction := "", deadline := extractDeadline q,
            active := raw.active }
        match searchPos tryReachHitAt ql with
        | some g => (parse_price (String.mk g)).map
            (fun t => { base with direction := "reach", threshold := some t })
        | none =>
          match searchPos tryDipNumAt ql with
          | some g => (parse_price (String.mk g)).map
              (fun t => { base with direction := "dip", threshold := some t })
          | none => some base
    | _, _ => none
  | _ => none

/-- Python truthiness of the optional `threshold` float
(`None` and `0.0` are falsy). -/
def thrTruthy : Option ℚ → Bool
  | some v => !(v == 0)
  | none => false

/-- The eligibility filter of `find_threshold_arbs`:
`if m.threshold and m.direction and m.deadline`. -/
def thrFilter (m : Market) : Bool :=
  thrTruthy m.threshold && !(m.direction == "") && !(m.deadline == "")

def mkInv (lower higher : Market) : ArbOpportunity :=
  { arb_type := "THRESHOLD_INVERSION", market_a := lower, market_b := higher,
    margin := (higher.yes_price - lower.yes_price) * 100, confidence := "HIGH" }

def mkFlat (lower higher : Market) : ArbOpportunity :=
  { arb_type := "FLAT_PRICING", market_a := lower, market_b := higher,
    margin := 1/2, confidence := "LOW" }

def mkSpreadC (lower higher : Market) (spread : ℚ) : ArbOpportunity :=
  { arb_type := "SPREAD_COMPRESSION", market_a := lower, market_b := higher,
    margin := spread * 100, confidence := "MEDIUM" }

def mkDip (higher_dip lower_dip : Market) : ArbOpportunity :=
  { arb_type := "DIP_INVERSION", market_a := higher_dip, market_b := lower_dip,
    margin := (lower_dip.yes_price - higher_dip.yes_price) * 100, confidence := "HIGH" }

/-- `group.sort(key=lambda m: m.threshold)` (stable). -/
def sortByThr (l : List Market) : List Market :=
  List.insertionSort (fun a b => a.threshold.getD 0 ≤ b.threshold.getD 0) l

/-- `group.sort(key=lambda m: m.threshold, reverse=True)` (stable). -/
def sortByThrDesc (l : List Market) : List Market :=
  List.insertionSort (fun a b => b.threshold.getD 0 ≤ a.threshold.getD 0) l

/-- The adjacent-pair walk of the `reach` branch of `find_threshold_arbs`:
per pair, the inversion / flat-pricing `if`/`elif`, then the independent
spread-compression check. -/
def reachScan (g : List Market) : List ArbOpportunity :=
  (adjPairs g).flatMap (fun p =>
    (if p.1.yes_price < p.2.yes_price then [mkInv p.1 p.2]
     else if p.2.yes_price = p.1.yes_price ∧ p.1.threshold ≠ p.2.threshold then
       [mkFlat p.1 p.2]
     else [])
    ++
    (if 0 < p.1.yes_price - p.2.yes_price ∧ p.1.yes_price - p.2.yes_price < 1/100
        ∧ 10000 ≤ p.2.threshold.getD 0 - p.1.threshold.getD 0 then
       [mkSpreadC p.1 p.2 (p.1.yes_price - p.2.yes_price)]
     else []))

/-- The adjacent-pair walk of the `dip` branch of `find_threshold_arbs`
(the list is sorted descending, so `p.1` is the easier higher dip target). -/
def dipScan (g : List Market) : List ArbOpportunity :=
  (adjPairs g).filterMap (fun p =>
    if p.1.yes_price < p.2.yes_price then some (mkDip p.1 p.2) else none)

/-- `find_threshold_arbs(markets)`. -/
def find_threshold_arbs (markets : List Market) : List ArbOpportunity :=
  (groupPass (fun m => (m.direction, m.deadline)) (markets.filter thrFilter)).flatMap
    (fun g =>
      if g.1.1 = "reach" then reachScan (sortByThr g.2)
      else if g.1.1 = "dip" then dipScan (sortByThrDesc g.2)
      else [])

/-- The filter of the event grouping in `find_timeline_arbs`:
`if m.event_title and m.deadline`. -/
def evtFilter (m : Market) : Bool :=
  !(m.event_title == "") && !(m.deadline == "")

/-- The sub-group filter of `find_timeline_arbs`:
`if m.threshold and m.direction`. -/
def subFilter (m : Market) : Bool :=
  thrTruthy m.threshold && !(m.direction == "")

/-- `(parse_deadline(m.deadline), m)` for the members whose deadline
parses. -/
def datedOf (sub : List Market) : List (PDate × Market) :=
  sub.filterMap (fun m => (parse_deadline m.deadline).map (fun d => (d, m)))

/-- Lexicographic order of `datetime.date` values. -/
def pdateLe (a b : PDate) : Prop :=
  a.year < b.year ∨ (a.year = b.year ∧
    (a.month < b.month ∨ (a.month = b.month ∧ a.day ≤ b.day)))

instance : DecidableRel pdateLe := fun a b => by unfold pdateLe; infer_instance

/-- `dated.sort(key=lambda x: x[0])` (stable). -/
def sortDated (l : List (PDate × Market)) : List (PDate × Market) :=
  List.insertionSort (fun a b => pdateLe a.1 b.1) l

def mkTimeline (earlier later : Market) : ArbOpportunity :=
  { arb_type := "TIMELINE_INVERSION", market_a := earlier, market_b := later,
    margin := (earlier.yes_price - later.yes_price) * 100, confidence := "HIGH" }

/-- The adjacent-pair walk over one date-sorted sub-group of
`find_timeline_arbs`: identical dates are skipped, a finding fires when the
earlier-deadline member is priced strictly above the later one and above
zero. -/
def timelineScan (dated : List (PDate × Market)) : List ArbOpportunity :=
  (adjPairs dated).filterMap (fun p =>
    if p.1.1 = p.2.1 then none
    else if p.2.2.yes_price < p.1.2.yes_price ∧ 0 < p.1.2.yes_price then
      some (mkTimeline p.1.2 p.2.2)
    else none)

/-- `find_timeline_arbs(markets)` (the `(direction, threshold)` grouping the
source builds first is dead code, never read afterwards, and is not
reproduced). -/
def find_timeline_arbs (markets : List Market) : List ArbOpportunity :=
  (groupPass Market.event_title (markets.filter evtFilter)).flatMap (fun tg =>
    if tg.2.length < 2 then []
    else
      (groupPass (fun m => (m.direction, m.threshold)) (tg.2.filter subFilter)).flatMap
        (fun sg => timelineScan (sortDated (datedOf sg.2))))

end RScan

/-! Helper lemmas about the generic combinators. -/

theorem filter_flatMap (p : β → Bool) (f : α → List β) (l : List α) :
    (l.flatMap f).filter p = l.flatMap fun x => (f x).filter p := by
  induction l with
  | nil => rfl
  | cons x xs ih => simp [List.flatMap_cons, List.filter_append, ih]

theorem flatMap_toList_eq_filterMap (g : α → Option β) (l : List α) :
    (l.flatMap fun x => (g x).toList) = l.filterMap g := by
  induction l with
  | nil => rfl
  | cons x xs ih =>
    cases h : g x <;> simp [List.flatMap_cons, h, ih, List.filterMap_cons]

theorem mem_adjPairs : ∀ (l : List α) (p : α × α), p ∈ adjPairs l → p.1 ∈ l ∧ p.2 ∈ l
  | [], p, h => by simp [adjPairs] at h
  | [x], p, h => by simp [adjPairs] at h
  | x :: y :: rest, p, h => by
    rcases List.mem_cons.1 (by simpa [adjPairs] using h) with h1 | h1
    · subst h1
      exact ⟨List.mem_cons_self .., List.mem_cons_of_mem _ (List.mem_cons_self ..)⟩
    · have ih := mem_adjPairs (y :: rest) p h1
      exact ⟨List.mem_cons_of_mem _ ih.1, List.mem_cons_of_mem _ ih.2⟩

theorem groupPass_sub [DecidableEq κ] {key : α → κ} {l : List α} {k : κ} {g : List α}
    (h : (k, g) ∈ groupPass key l) : ∀ a ∈ g, a ∈ l := by
  unfold groupPass at h
  rcases List.mem_map.1 h with ⟨k2, _, heq⟩
  have hg : g = l.filter (fun a => decide (key a = k2)) := by
    have := congrArg Prod.snd heq
    simpa using this.symm
  intro a ha
  rw [hg] at ha
  exact (List.mem_filter.1 ha).1

/-! C1 -/

/-- C1: in `find_threshold_arbs`, for a reach cohort sorted ascending by
threshold, a `THRESHOLD_INVERSION` finding is emitted for an adjacent pair
iff the lower-threshold member's `yes_price` is strictly less than the
higher-threshold member's, and the finding's margin is
`(higher.yes_price - lower.yes_price) * 100` percentage points. -/
theorem c1_threshold_inversion_iff (g : List RScan.Market) :
    (RScan.reachScan (RScan.sortByThr g)).filter
        (fun a => decide (a.arb_type = "THRESHOLD_INVERSION"))
      = (adjPairs (RScan.sortByThr g)).filterMap (fun p =>
          if p.1.yes_price < p.2.yes_price then
            some { arb_type := "THRESHOLD_INVERSION", market_a := p.1, market_b := p.2,
                   margin := (p.2.yes_price - p.1.yes_price) * 100, confidence := "HIGH" }
          else none) := by
  unfold RScan.reachScan
  rw [filter_flatMap, ← flatMap_toList_eq_filterMap]
  congr 1
  funext p
  by_cases h1 : p.1.yes_price < p.2.yes_price
  · simp [h1, List.filter_append, RScan.mkInv, RScan.mkFlat, RScan.mkSpreadC,
      List.filter_cons, apply_ite (List.filter _)]
  · by_cases h2 : p.2.yes_price = p.1.yes_price ∧ p.1.threshold ≠ p.2.threshold
    · simp [h1, h2, List.filter_append, RScan.mkInv, RScan.mkFlat, RScan.mkSpreadC,
        List.filter_cons, apply_ite (List.filter _)]
    · simp [h1, h2, List.filter_append, RScan.mkInv, RScan.mkFlat, RScan.mkSpreadC,
        List.filter_cons, apply_ite (List.filter _)]

/-! C6 -/

/-- C6: in `find_timeline_arbs`, over a date-sorted sub-cohort a
`TIMELINE_INVERSION` finding is emitted for an adjacent pair iff the two
parsed dates differ, the earlier-deadline member's `yes_price` is strictly
greater than the later one's, and the earlier price is positive; the margin
is `(earlier - later) * 100` and the confidence is `HIGH`. -/
theorem c6_timeline_inversion_iff (sub : List RScan.Market) :
    RScan.timelineScan (RScan.sortDated (RScan.datedOf sub))
      = (adjPairs (RScan.sortDated (RScan.datedOf sub))).filterMap (fun p =>
          if p.1.1 ≠ p.2.1 ∧ p.2.2.yes_price < p.1.2.yes_price ∧ 0 < p.1.2.yes_price then
            some { arb_type := "TIMELINE_INVERSION", market_a := p.1.2, market_b := p.2.2,
                   margin := (p.1.2.yes_price - p.2.2.yes_price) * 100, confidence := "HIGH" }
          else none) := by
  unfold RScan.timelineScan
  congr 1
  funext p
  by_cases h1 : p.1.1 = p.2.1
  · simp [h1]
  · by_cases h2 : p.2.2.yes_price < p.1.2.yes_price ∧ 0 < p.1.2.yes_price
    · simp [h1, h2, RScan.mkTimeline]
    · simp [h1, h2, RScan.mkTimeline]

/-! C7 -/

/-- Concrete boundary entries for C7: same strike on two dates, with a
divergence of exactly 0.15 resp. 0.1501. -/
def cdE1 : SScan.CDEntry := ⟨"February 27", "E1", 1/2, "m1", "q1", 2000, 0⟩

def cdE215 : SScan.CDEntry := ⟨"March 4", "E2", 13/20, "m2", "q2", 2000, 0⟩

def cdE21501 : SScan.CDEntry := ⟨"March 4", "E2", 6501/10000, "m2", "q2", 2000, 0⟩

attribute [local semireducible] Rat.mul Rat.add Rat.sub Rat.inv Rat.ofScientific in
/-- C7: `scan_cross_date` compares every pair of dated entries of a strike
cohort and emits a finding for a pair iff the absolute yes-price difference
strictly exceeds 0.15 (a difference of exactly 0.15 does not fire, 0.1501
does), and every emitted finding has severity `INFO`. -/
theorem c7_cross_date_info :
    (∀ (strike : ℚ) (entries : List SScan.CDEntry) (f : SScan.Finding),
        f ∈ SScan.cross_date_pairs strike entries → f.severity = "INFO")
    ∧ (∀ (strike : ℚ) (entries : List SScan.CDEntry),
        SScan.cross_date_pairs strike entries
          = if entries.length < 2 then []
            else (allPairs (SScan.sortByDateStr entries)).filterMap (fun p =>
              if |p.1.yes_odds - p.2.yes_odds| > 3/20 then
                some { ftype := "cross_date_divergence", severity := "INFO", event := "",
                       spread := some |p.1.yes_odds - p.2.yes_odds|,
                       payload := .crossDate strike p.1 p.2 }
              else none))
    ∧ SScan.cross_date_pairs 70000 [cdE1, cdE215] = []
    ∧ SScan.cross_date_pairs 70000 [cdE1, cdE21501]
        = [SScan.cdFinding 70000 cdE1 cdE21501] := by
  refine ⟨?_, fun strike entries => rfl, by decide, by decide⟩
  intro strike entries f h
  unfold SScan.cross_date_pairs at h
  split_ifs at h with hlen
  · cases h
  · rcases List.mem_filterMap.1 h with ⟨p, -, hp⟩
    by_cases hc : |p.1.yes_odds - p.2.yes_odds| > 3/20
    · rw [if_pos hc] at hp
      cases Option.some.inj hp
      rfl
    · rw [if_neg hc] at hp
      cases hp

/-! C5 -/

theorem monoPairs_mem {f : SScan.Finding} {st et : String} {l : List SScan.MEntry}
    (h : f ∈ SScan.monoPairs st et l) :
    ∃ a b, f = SScan.monoFinding st et a b := by
  unfold SScan.monoPairs at h
  rcases List.mem_filterMap.1 h with ⟨p, -, hp⟩
  by_cases hc : p.1.yes_odds < p.2.yes_odds
  · rw [if_pos hc] at hp
    exact ⟨p.1, p.2, (Option.some.inj hp).symm⟩
  · rw [if_neg hc] at hp
    cases hp

theorem monoFinding_severity (st et : String) (a b : SScan.MEntry) :
    ((SScan.monoFinding st et a b).severity = "HIGH"
        ↔ 1/50 < SScan.spreadVal (SScan.monoFinding st et a b))
    ∧ ((SScan.monoFinding st et a b).severity = "MEDIUM"
        ↔ 1/200 < SScan.spreadVal (SScan.monoFinding st et a b)
            ∧ SScan.spreadVal (SScan.monoFinding st et a b) ≤ 1/50) := by
  have hsev : (SScan.monoFinding st et a b).severity
      = (if b.yes_odds - a.yes_odds > 1/50 then "HIGH"
         else if b.yes_odds - a.yes_odds > 1/200 then "MEDIUM" else "LOW") := rfl
  have hsp : SScan.spreadVal (SScan.monoFinding st et a b) = b.yes_odds - a.yes_odds := rfl
  rw [hsev, hsp]
  split_ifs with h1 h2
  · exact ⟨⟨fun _ => h1, fun _ => rfl⟩,
      ⟨fun hc => absurd hc (by decide), fun hp => absurd h1 (not_lt.2 hp.2)⟩⟩
  · exact ⟨⟨fun hc => absurd hc (by decide), fun hlt => absurd hlt h1⟩,
      ⟨fun _ => ⟨h2, not_lt.1 h1⟩, fun _ => rfl⟩⟩
  · exact ⟨⟨fun hc => absurd hc (by decide), fun hlt => absurd hlt h1⟩,
      ⟨fun hc => absurd hc (by decide), fun hp => absurd hp.1 h2⟩⟩

/-- C5: in `scan_monotonicity` an emitted violation has severity `HIGH` iff
its spread exceeds 0.02 (margin > 2pp) and `MEDIUM` iff the spread is in
(0.005, 0.02]; and in `find_threshold_arbs` an adjacent reach pair with
exactly equal prices at different thresholds is recorded as a
`FLAT_PRICING` finding with confidence `LOW`. -/
theorem c5_severity_rule :
    (∀ (ms : List SScan.RawSM) (et : String) (liq : ℚ) (fs : List SScan.Finding),
        SScan.scan_monotonicity ms et liq = .ok fs →
        ∀ f ∈ fs,
          (f.severity = "HIGH" ↔ 1/50 < SScan.spreadVal f)
          ∧ (f.severity = "MEDIUM"
              ↔ 1/200 < SScan.spreadVal f ∧ SScan.spreadVal f ≤ 1/50))
    ∧ (∀ g : List RScan.Market,
        (RScan.reachScan (RScan.sortByThr g)).filter
            (fun a => decide (a.arb_type = "FLAT_PRICING"))
          = (adjPairs (RScan.sortByThr g)).filterMap (fun p =>
              if p.2.yes_price = p.1.yes_price ∧ p.1.threshold ≠ p.2.threshold then
                some { arb_type := "FLAT_PRICING", market_a := p.1, market_b := p.2,
                       margin := 1/2, confidence := "LOW" }
              else none)) := by
  constructor
  · intro ms et liq fs h f hf
    unfold SScan.scan_monotonicity at h
    cases hc : SScan.collectMono liq ms with
    | error e => rw [hc] at h; cases h
    | ok ab =>
      rw [hc] at h
      cases Except.ok.inj h
      rcases List.mem_append.1 hf with h1 | h1
      · obtain ⟨a, b, rfl⟩ := monoPairs_mem h1
        exact monoFinding_severity _ _ a b
      · obtain ⟨a, b, rfl⟩ := monoPairs_mem h1
        exact monoFinding_severity _ _ a b
  · intro g
    unfold RScan.reachScan
    rw [filter_flatMap, ← flatMap_toList_eq_filterMap]
    congr 1
    funext p
    by_cases h1 : p.1.yes_price < p.2.yes_price
    · have hne : ¬(p.2.yes_price = p.1.yes_price ∧ p.1.threshold ≠ p.2.threshold) := by
        rintro ⟨he, -⟩
        exact absurd (he ▸ h1) (lt_irrefl _)
      simp [h1, hne, List.filter_append, RScan.mkInv, RScan.mkFlat, RScan.mkSpreadC,
        List.filter_cons, apply_ite (List.filter _)]
    · by_cases h2 : p.2.yes_price = p.1.yes_price ∧ p.1.threshold ≠ p.2.threshold
      · simp [h1, h2, List.filter_append, RScan.mkInv, RScan.mkFlat, RScan.mkSpreadC,
          List.filter_cons, apply_ite (List.filter _)]
      · simp [h1, h2, List.filter_append, RScan.mkInv, RScan.mkFlat, RScan.mkSpreadC,
          List.filter_cons, apply_ite (List.filter _)]

/-! C2 -/

/-- C2: `scan_range_sums` emits at most one finding; a finding is emitted
iff at least two range buckets are present and the bucket total (range
buckets plus the at-most-one overflow bucket) differs from 1 by strictly
more than 0.05; its severity is `HIGH` iff the deviation strictly exceeds
0.10 and `MEDIUM` otherwise; and its `action.strategy` is `"sell all YES"`
iff the total exceeds 1 and `"buy all YES"` otherwise. -/
theorem c2_range_sum_rule :
    ∀ (ms : List SScan.RawSM) (et : String) (liq : ℚ) (fs : List SScan.Finding),
      SScan.scan_range_sums ms et liq = .ok fs →
      ∀ (rs : List SScan.BEntry) (ov : Option SScan.BEntry),
        SScan.collectRange liq ms = .ok (rs, ov) →
        fs.length ≤ 1
        ∧ (fs ≠ [] ↔ 2 ≤ rs.length ∧ |SScan.bucketsTotal rs ov - 1| > 1/20)
        ∧ ∀ f ∈ fs,
            (f.severity = "HIGH" ↔ |SScan.bucketsTotal rs ov - 1| > 1/10)
            ∧ (f.severity = "MEDIUM" ↔ ¬ |SScan.bucketsTotal rs ov - 1| > 1/10)
            ∧ (SScan.strategyOf f = "sell all YES" ↔ 1 < SScan.bucketsTotal rs ov)
            ∧ (SScan.strategyOf f = "buy all YES" ↔ ¬ 1 < SScan.bucketsTotal rs ov) := by
  intro ms et liq fs h rs ov hc
  unfold SScan.scan_range_sums at h
  rw [hc] at h
  replace h : (if rs.length < 2 then (Except.ok [] : Except Unit (List SScan.Finding))
      else if |SScan.bucketsTotal rs ov - 1| > 1/20 then
        Except.ok [SScan.rangeSumFinding et (rs ++ ov.toList)]
      else Except.ok []) = Except.ok fs := h
  by_cases hlen : rs.length < 2
  · rw [if_pos hlen] at h
    cases Except.ok.inj h
    refine ⟨by simp, ?_, by simp⟩
    exact iff_of_false (fun hne => hne rfl)
      (fun hp => absurd hlen (not_lt.2 hp.1))
  · rw [if_neg hlen] at h
    by_cases htol : |SScan.bucketsTotal rs ov - 1| > 1/20
    · rw [if_pos htol] at h
      cases Except.ok.inj h
      refine ⟨by simp, iff_of_true (by simp) ⟨not_lt.1 hlen, htol⟩, ?_⟩
      intro f hf
      rcases List.mem_singleton.1 hf with rfl
      have hsevd : (SScan.rangeSumFinding et (rs ++ ov.toList)).severity
          = (if |SScan.bucketsTotal rs ov - 1| > 1/10 then "HIGH" else "MEDIUM") := rfl
      have hstrd : SScan.strategyOf (SScan.rangeSumFinding et (rs ++ ov.toList))
          = (if 1 < SScan.bucketsTotal rs ov then "sell all YES" else "buy all YES") := rfl
      rw [hsevd, hstrd]
      refine ⟨?_, ?_, ?_, ?_⟩
      · by_cases hA : |SScan.bucketsTotal rs ov - 1| > 1/10
        · rw [if_pos hA]; exact iff_of_true rfl hA
        · rw [if_neg hA]; exact iff_of_false (by decide) hA
      · by_cases hA : |SScan.bucketsTotal rs ov - 1| > 1/10
        · rw [if_pos hA]; exact iff_of_false (by decide) (not_not_intro hA)
        · rw [if_neg hA]; exact iff_of_true rfl hA
      · by_cases hB : 1 < SScan.bucketsTotal rs ov
        · rw [if_pos hB]; exact iff_of_true rfl hB
        · rw [if_neg hB]; exact iff_of_false (by decide) hB
      · by_cases hB : 1 < SScan.bucketsTotal rs ov
        · rw [if_pos hB]; exact iff_of_false (by decide) (not_not_intro hB)
        · rw [if_neg hB]; exact iff_of_true rfl hB
    · rw [if_neg htol] at h
      cases Except.ok.inj h
      exact ⟨by simp, iff_of_false (fun hne => hne rfl) (fun hp => absurd hp.2 htol), by simp⟩

/-- Concrete C2 cohort: two range buckets (0.50, 0.40) and one `>`-prefixed
overflow bucket (0.22), total 1.12. -/
def c2ms : List SScan.RawSM :=
  [⟨some "60,000-62,000", "q1", some (1/2), some 2000, some 0, "m1"⟩,
   ⟨some "62,000-64,000", "q2", some (2/5), some 2000, some 0, "m2"⟩,
   ⟨some ">76,000", "q3", some (11/50), some 2000, some 0, "m3"⟩]

def c2rs : List SScan.BEntry :=
  [⟨"range", .rng 60000 62000, 1/2, "q1", "m1", 2000⟩,
   ⟨"range", .rng 62000 64000, 2/5, "q2", "m2", 2000⟩]

def c2ov : Option SScan.BEntry := some ⟨"overflow", .num 76000, 11/50, "q3", "m3", 2000⟩

def c2fs : List SScan.Finding := [SScan.rangeSumFinding "E" (c2rs ++ c2ov.toList)]

/-- Concrete C2 boundary cohort: two range buckets summing to exactly
1.05. -/
def c2ms105 : List SScan.RawSM :=
  [⟨some "60,000-62,000", "q1", some (1/2), some 2000, some 0, "m1"⟩,
   ⟨some "62,000-64,000", "q2", some (11/20), some 2000, some 0, "m2"⟩]

attribute [local semireducible] Rat.mul Rat.add Rat.sub Rat.inv Rat.ofScientific in
/-- Witness for C2: the 1.12 cohort yields exactly one `HIGH` /
`"sell all YES"` finding, and the 1.05 cohort yields none. -/
theorem c2_range_sum_rule_witness :
    (c2fs.length ≤ 1
     ∧ (c2fs ≠ [] ↔ 2 ≤ c2rs.length ∧ |SScan.bucketsTotal c2rs c2ov - 1| > 1/20)
     ∧ ∀ f ∈ c2fs,
         (f.severity = "HIGH" ↔ |SScan.bucketsTotal c2rs c2ov - 1| > 1/10)
         ∧ (f.severity = "MEDIUM" ↔ ¬ |SScan.bucketsTotal c2rs c2ov - 1| > 1/10)
         ∧ (SScan.strategyOf f = "sell all YES" ↔ 1 < SScan.bucketsTotal c2rs c2ov)
         ∧ (SScan.strategyOf f = "buy all YES" ↔ ¬ 1 < SScan.bucketsTotal c2rs c2ov))
    ∧ SScan.scan_range_sums c2ms "E" 1000 = .ok c2fs
    ∧ SScan.scan_range_sums c2ms105 "E" 1000 = .ok []
    ∧ (SScan.rangeSumFinding "E" (c2rs ++ c2ov.toList)).severity = "HIGH"
    ∧ SScan.strategyOf (SScan.rangeSumFinding "E" (c2rs ++ c2ov.toList)) = "sell all YES" :=
  ⟨c2_range_sum_rule c2ms "E" 1000 c2fs (by decide) c2rs c2ov (by decide),
   by decide, by decide, by decide, by decide⟩

/-! C3 -/

def c3e : SScan.CDEntry := ⟨"d", "e", 0, "m", "q", 0, 0⟩

def c3f1 : SScan.Finding :=
  { ftype := "cross_date_divergence", severity := "INFO", spread := some 0,
    payload := .crossDate 1 c3e c3e }

def c3f2 : SScan.Finding :=
  { ftype := "cross_date_divergence", severity := "INFO", spread := some 0,
    payload := .crossDate 2 c3e c3e }

/-- Counterexample for C3: two distinct findings with identical severity and
spread; the final ordering has no tertiary key, so the two orders of the
same multiset sort to different sequences — the output is not determined by
the input multiset alone. -/
theorem c3_ranking_counterexample :
    SScan.sort_findings [c3f1, c3f2] ≠ SScan.sort_findings [c3f2, c3f1]
    ∧ ([c3f1, c3f2] : List SScan.Finding).Perm [c3f2, c3f1] :=
  ⟨by decide, List.Perm.swap c3f2 c3f1 []⟩

/-- C3 (amended): the final ordering sorts every finding list by severity
(`HIGH`, `MEDIUM`, `LOW`, `INFO`) and then by spread descending, stably in
input order on ties, and drops or merges nothing (the output is a
permutation of the input); it is deterministic for a fixed input sequence
but not independent of the order in which findings were produced. -/
theorem c3_ranking_amended (fs : List SScan.Finding) :
    List.Sorted SScan.rankLE (SScan.sort_findings fs)
    ∧ (SScan.sort_findings fs).Perm fs :=
  ⟨List.sorted_insertionSort SScan.rankLE fs, List.perm_insertionSort SScan.rankLE fs⟩

/-! C4 -/

/-- Component of the amended C4 rejection condition: a reach/dip threshold
token was matched in the question but its numeric conversion
(`parse_price`) raises. -/
def thresholdTokenFails (q : String) : Prop :=
  match searchPos RScan.tryReachHitAt (q.data.map Char.toLower) with
  | some g => RScan.parse_price (String.mk g) = none
  | none =>
    match searchPos RScan.tryDipNumAt (q.data.map Char.toLower) with
    | some g => RScan.parse_price (String.mk g) = none
    | none => False

/-- Amended C4 rejection condition for `parse_market`: fewer than two
outcome prices, an unconvertible price entry, the exactly-resolved pairs
`(0, 1)` / `(1, 0)`, or a matched threshold token that fails numeric
conversion. -/
def normalizeRejects (raw : RScan.RawMarket) : Prop :=
  match raw.outcomePrices with
  | p0 :: p1 :: _ =>
    p0 = none ∨ p1 = none
    ∨ (p0 = some 0 ∧ p1 = some 1) ∨ (p0 = some 1 ∧ p1 = some 0)
    ∨ thresholdTokenFails raw.question
  | _ => True

/-- Concrete C4 counterexample record: `yes_price` is exactly 1 but the
pair is not the resolved pair `(1, 0)`. -/
def c4raw : RScan.RawMarket := { question := "q", outcomePrices := [some 1, some (1/2)] }

attribute [local semireducible] Rat.mul Rat.add Rat.sub Rat.inv Rat.ofScientific in
/-- Counterexample for C4: a record whose `yes_price` is exactly 1 (with
`no_price` 0.5) is not rejected by `parse_market`, so a market with
`yes_price ∈ {0, 1}` can reach the detectors. -/
theorem c4_normalize_counterexample :
    RScan.parse_market c4raw ≠ none
    ∧ (RScan.parse_market c4raw).map RScan.Market.yes_price = some 1 :=
  ⟨by decide, by decide⟩

/-- C4 (amended): `parse_market` returns `None` exactly when fewer than two
outcome prices are present, a price entry fails numeric conversion, the
price pair is exactly `(0, 1)` or `(1, 0)`, or a matched threshold token
fails numeric conversion; otherwise it returns a Market whose `yes_price`
is `prices[0]`. -/
theorem c4_normalize_amended (raw : RScan.RawMarket) :
    (RScan.parse_market raw = none ↔ normalizeRejects raw)
    ∧ ∀ m, RScan.parse_market raw = some m →
        raw.outcomePrices.head? = some (some m.yes_price) := by
  unfold RScan.parse_market normalizeRejects
  rcases hp : raw.outcomePrices with - | ⟨p0, - | ⟨p1, rest⟩⟩
  · simp
  · simp
  · cases p0 with
    | none => simp
    | some yes =>
      cases p1 with
      | none => simp
      | some no =>
        dsimp only
        by_cases hdeg : (yes = 0 ∧ no = 1) ∨ (yes = 1 ∧ no = 0)
        · rw [if_pos hdeg]
          refine ⟨iff_of_true rfl ?_, fun m hm => by cases hm⟩
          rcases hdeg with ⟨h0, h1⟩ | ⟨h0, h1⟩
          · exact Or.inr (Or.inr (Or.inl ⟨by rw [h0], by rw [h1]⟩))
          · exact Or.inr (Or.inr (Or.inr (Or.inl ⟨by rw [h0], by rw [h1]⟩)))
        · rw [if_neg hdeg]
          have hnd : ¬((some yes = some (0:ℚ) ∧ some no = some (1:ℚ))
              ∨ (some yes = some (1:ℚ) ∧ some no = some (0:ℚ))) := by
            rintro (⟨h0, h1⟩ | ⟨h0, h1⟩)
            · exact hdeg (Or.inl ⟨Option.some.inj h0, Option.some.inj h1⟩)
            · exact hdeg (Or.inr ⟨Option.some.inj h0, Option.some.inj h1⟩)
          unfold thresholdTokenFails
          cases hr : searchPos RScan.tryReachHitAt (raw.question.data.map Char.toLower) with
          | some g =>
            dsimp only
            cases hpp : RScan.parse_price (String.mk g) with
            | none =>
              rw [Option.map_none']
              refine ⟨iff_of_true rfl ?_, fun m hm => by cases hm⟩
              exact Or.inr (Or.inr (Or.inr (Or.inr rfl)))
            | some t =>
              rw [Option.map_some']
              refine ⟨iff_of_false (fun hcon => by cases hcon) ?_, fun m hm => ?_⟩
              · rintro (hcon | hcon | hcon | hcon | hcon)
                · cases hcon
                · cases hcon
                · exact hnd (Or.inl hcon)
                · exact hnd (Or.inr hcon)
                · cases hcon
              · cases Option.some.inj hm
                rfl
          | none =>
            dsimp only
            cases hd : searchPos RScan.tryDipNumAt (raw.question.data.map Char.toLower) with
            | some g =>
              dsimp only
              cases hpp : RScan.parse_price (String.mk g) with
              | none =>
                rw [Option.map_none']
                refine ⟨iff_of_true rfl ?_, fun m hm => by cases hm⟩
                exact Or.inr (Or.inr (Or.inr (Or.inr rfl)))
              | some t =>
                rw [Option.map_some']
                refine ⟨iff_of_false (fun hcon => by cases hcon) ?_, fun m hm => ?_⟩
                · rintro (hcon | hcon | hcon | hcon | hcon)
                  · cases hcon
                  · cases hcon
                  · exact hnd (Or.inl hcon)
                  · exact hnd (Or.inr hcon)
                  · cases hcon
                · cases Option.some.inj hm
                  rfl
            | none =>
              dsimp only
              refine ⟨iff_of_false (fun hcon => by cases hcon) ?_, fun m hm => ?_⟩
              · rintro (hcon | hcon | hcon | hcon | hcon)
                · cases hcon
                · cases hcon
                · exact hnd (Or.inl hcon)
                · exact hnd (Or.inr hcon)
                · cases hcon
              · cases Option.some.inj hm
                rfl

/-- The market `parse_market` builds from `c4raw`. -/
def c4m : RScan.Market :=
  { question := "q", yes_price := 1, no_price := 1/2, event_title := "" }

attribute [local semireducible] Rat.mul Rat.add Rat.sub Rat.inv Rat.ofScientific in
/-- Witness for the amended C4, instantiated at the concrete record. -/
theorem c4_normalize_amended_witness :
    (RScan.parse_market c4raw = none ↔ normalizeRejects c4raw)
    ∧ c4raw.outcomePrices.head? = some (some c4m.yes_price) :=
  ⟨(c4_normalize_amended c4raw).1, (c4_normalize_amended c4raw).2 c4m (by decide)⟩

/-! C8 -/

/-- Concrete C8 snapshot: nine valid records and one already-resolved
record (`yes_price = 1.0`, `no_price = 0.0`). -/
def snapshot10 : List RScan.RawMarket :=
  [{ question := "m1", outcomePrices := [some (2/5), some (3/5)] },
   { question := "m2", outcomePrices := [some (1/4), some (3/4)] },
   { question := "m3", outcomePrices := [some (1/5), some (4/5)] },
   { question := "m4", outcomePrices := [some (3/10), some (7/10)] },
   { question := "m5", outcomePrices := [some (1/2), some (1/2)] },
   { question := "m6", outcomePrices := [some (3/5), some (2/5)] },
   { question := "m7", outcomePrices := [some (7/10), some (3/10)] },
   { question := "m8", outcomePrices := [some (4/5), some (1/5)] },
   { question := "m9", outcomePrices := [some (9/10), some (1/10)] },
   { question := "m10", outcomePrices := [some 1, some 0] }]

attribute [local semireducible] Rat.mul Rat.add Rat.sub Rat.inv Rat.ofScientific in
/-- C8: no record is silently lost — the parsed markets and the discarded
records always partition the snapshot — and the concrete snapshot with one
degenerate market among nine valid ones yields exactly nine markets and a
discard count of one. -/
theorem c8_discard_accounting :
    (∀ raws : List RScan.RawMarket,
        (raws.filterMap RScan.parse_market).length
          + (raws.filter (fun r => (RScan.parse_market r).isNone)).length
          = raws.length)
    ∧ (snapshot10.filterMap RScan.parse_market).length = 9
    ∧ snapshot10.length - (snapshot10.filterMap RScan.parse_market).length = 1 := by
  refine ⟨?_, by decide, by decide⟩
  intro raws
  induction raws with
  | nil => rfl
  | cons r rest ih =>
    cases h : RScan.parse_market r <;>
      simp [List.filterMap_cons, List.filter_cons, h] <;> omega

/-! C9 -/

/-- C9: `extract_strike` is not total — on a `group_item_title` whose
matched `[\d,]+` numeric token contains no digit (here a bare comma) the
`float("")` conversion raises a `ValueError` into the caller instead of
falling through to `("unknown", None)`. -/
theorem c9_extract_strike_raises :
    SScan.extract_strike (some ",") (some "Will Bitcoin hold?") = .error () := by decide

/-! C10 -/

/-- Spec-side predicate for C10: the member survives the Python truthiness
tests used by the grouping passes (`threshold` neither absent nor zero,
nonempty direction, nonempty deadline). -/
def memberOk (m : RScan.Market) : Prop :=
  m.threshold ≠ none ∧ m.threshold ≠ some 0 ∧ m.direction ≠ "" ∧ m.deadline ≠ ""

theorem thrTruthy_ok {o : Option ℚ} (h : RScan.thrTruthy o = true) :
    o ≠ none ∧ o ≠ some 0 := by
  cases o with
  | none => cases h
  | some v =>
    have hv : v ≠ 0 := by simpa [RScan.thrTruthy] using h
    exact ⟨by simp, by simpa using hv⟩

theorem thrFilter_ok {m : RScan.Market} (h : RScan.thrFilter m = true) : memberOk m := by
  unfold RScan.thrFilter at h
  rw [Bool.and_eq_true, Bool.and_eq_true] at h
  obtain ⟨⟨h1, h2⟩, h3⟩ := h
  have ht := thrTruthy_ok h1
  refine ⟨ht.1, ht.2, ?_, ?_⟩
  · simpa using h2
  · simpa using h3

theorem evtFilter_deadline {m : RScan.Market} (h : RScan.evtFilter m = true) :
    m.deadline ≠ "" := by
  unfold RScan.evtFilter at h
  rw [Bool.and_eq_true] at h
  simpa using h.2

theorem subFilter_ok {m : RScan.Market} (h : RScan.subFilter m = true) :
    m.threshold ≠ none ∧ m.threshold ≠ some 0 ∧ m.direction ≠ "" := by
  unfold RScan.subFilter at h
  rw [Bool.and_eq_true] at h
  exact ⟨(thrTruthy_ok h.1).1, (thrTruthy_ok h.1).2, by simpa using h.2⟩

theorem reachScan_mem {arb : RScan.ArbOpportunity} {g : List RScan.Market}
    (h : arb ∈ RScan.reachScan g) : arb.market_a ∈ g ∧ arb.market_b ∈ g := by
  unfold RScan.reachScan at h
  rcases List.mem_flatMap.1 h with ⟨p, hp, hin⟩
  have hmem := mem_adjPairs g p hp
  rcases List.mem_append.1 hin with h1 | h1
  · by_cases c1 : p.1.yes_price < p.2.yes_price
    · rw [if_pos c1] at h1
      rcases List.mem_singleton.1 h1 with rfl
      exact hmem
    · rw [if_neg c1] at h1
      by_cases c2 : p.2.yes_price = p.1.yes_price ∧ p.1.threshold ≠ p.2.threshold
      · rw [if_pos c2] at h1
        rcases List.mem_singleton.1 h1 with rfl
        exact hmem
      · rw [if_neg c2] at h1
        cases h1
  · by_cases c3 : 0 < p.1.yes_price - p.2.yes_price
        ∧ p.1.yes_price - p.2.yes_price < 1/100
        ∧ 10000 ≤ p.2.threshold.getD 0 - p.1.threshold.getD 0
    · rw [if_pos c3] at h1
      rcases List.mem_singleton.1 h1 with rfl
      exact hmem
    · rw [if_neg c3] at h1
      cases h1

theorem dipScan_mem {arb : RScan.ArbOpportunity} {g : List RScan.Market}
    (h : arb ∈ RScan.dipScan g) : arb.market_a ∈ g ∧ arb.market_b ∈ g := by
  unfold RScan.dipScan at h
  rcases List.mem_filterMap.1 h with ⟨p, hp, heq⟩
  have hmem := mem_adjPairs g p hp
  by_cases c : p.1.yes_price < p.2.yes_price
  · rw [if_pos c] at heq
    cases Option.some.inj heq
    exact hmem
  · rw [if_neg c] at heq
    cases heq

theorem timelineScan_mem {arb : RScan.ArbOpportunity}
    {dated : List (RScan.PDate × RScan.Market)} (h : arb ∈ RScan.timelineScan dated) :
    (∃ x ∈ dated, arb.market_a = x.2) ∧ (∃ x ∈ dated, arb.market_b = x.2) := by
  unfold RScan.timelineScan at h
  rcases List.mem_filterMap.1 h with ⟨p, hp, heq⟩
  have hmem := mem_adjPairs dated p hp
  by_cases c1 : p.1.1 = p.2.1
  · rw [if_pos c1] at heq
    cases heq
  · rw [if_neg c1] at heq
    by_cases c2 : p.2.2.yes_price < p.1.2.yes_price ∧ 0 < p.1.2.yes_price
    · rw [if_pos c2] at heq
      cases Option.some.inj heq
      exact ⟨⟨p.1, hmem.1, rfl⟩, ⟨p.2, hmem.2, rfl⟩⟩
    · rw [if_neg c2] at heq
      cases heq

theorem datedOf_mem {x : RScan.PDate × RScan.Market} {sub : List RScan.Market}
    (h : x ∈ RScan.datedOf sub) : x.2 ∈ sub := by
  unfold RScan.datedOf at h
  rcases List.mem_filterMap.1 h with ⟨m, hm, hx⟩
  cases hdl : RScan.parse_deadline m.deadline with
  | none => rw [hdl] at hx; cases hx
  | some d =>
    rw [hdl] at hx
    cases Option.some.inj hx
    exact hm

theorem sortByThr_sub {a : RScan.Market} {l : List RScan.Market}
    (h : a ∈ RScan.sortByThr l) : a ∈ l :=
  (List.perm_insertionSort _ l).subset h

theorem sortByThrDesc_sub {a : RScan.Market} {l : List RScan.Market}
    (h : a ∈ RScan.sortByThrDesc l) : a ∈ l :=
  (List.perm_insertionSort _ l).subset h

theorem sortDated_sub {x : RScan.PDate × RScan.Market}
    {l : List (RScan.PDate × RScan.Market)} (h : x ∈ RScan.sortDated l) : x ∈ l :=
  (List.perm_insertionSort _ l).subset h

/-- C10: every member of every finding emitted by `find_threshold_arbs`
(threshold inversion, flat pricing, spread compression, dip inversion) or
`find_timeline_arbs` has a nonzero present threshold, a nonempty direction
and a nonempty deadline — a market with threshold 0 or an empty deadline
string is assigned to no cohort and appears in no such finding. -/
theorem c10_untruthy_markets_excluded (markets : List RScan.Market)
    (arb : RScan.ArbOpportunity)
    (h : arb ∈ RScan.find_threshold_arbs markets ++ RScan.find_timeline_arbs markets) :
    memberOk arb.market_a ∧ memberOk arb.market_b := by
  rcases List.mem_append.1 h with h | h
  · unfold RScan.find_threshold_arbs at h
    rcases List.mem_flatMap.1 h with ⟨kg, hkg, hin⟩
    obtain ⟨k, g⟩ := kg
    have hsub := groupPass_sub hkg
    by_cases hr : k.1 = "reach"
    · rw [if_pos hr] at hin
      have hm := reachScan_mem hin
      have ha := List.mem_filter.1 (hsub _ (sortByThr_sub hm.1))
      have hb := List.mem_filter.1 (hsub _ (sortByThr_sub hm.2))
      exact ⟨thrFilter_ok ha.2, thrFilter_ok hb.2⟩
    · rw [if_neg hr] at hin
      by_cases hd : k.1 = "dip"
      · rw [if_pos hd] at hin
        have hm := dipScan_mem hin
        have ha := List.mem_filter.1 (hsub _ (sortByThrDesc_sub hm.1))
        have hb := List.mem_filter.1 (hsub _ (sortByThrDesc_sub hm.2))
        exact ⟨thrFilter_ok ha.2, thrFilter_ok hb.2⟩
      · rw [if_neg hd] at hin
        cases hin
  · unfold RScan.find_timeline_arbs at h
    rcases List.mem_flatMap.1 h with ⟨tg, htg, hin⟩
    obtain ⟨t, g⟩ := tg
    by_cases hlen : g.length < 2
    · rw [if_pos hlen] at hin
      cases hin
    · rw [if_neg hlen] at hin
      rcases List.mem_flatMap.1 hin with ⟨sg, hsg, hin2⟩
      obtain ⟨sk, sub⟩ := sg
      obtain ⟨⟨xa, hxa, hea⟩, xb, hxb, heb⟩ := timelineScan_mem hin2
      have hsubg := groupPass_sub hsg
      have hga := List.mem_filter.1 (hsubg _ (datedOf_mem (sortDated_sub hxa)))
      have hgb := List.mem_filter.1 (hsubg _ (datedOf_mem (sortDated_sub hxb)))
      have hmk := groupPass_sub htg
      have hfa := List.mem_filter.1 (hmk _ hga.1)
      have hfb := List.mem_filter.1 (hmk _ hgb.1)
      have hA := subFilter_ok hga.2
      have hB := subFilter_ok hgb.2
      rw [hea, heb]
      exact ⟨⟨hA.1, hA.2.1, hA.2.2, evtFilter_deadline hfa.2⟩,
        ⟨hB.1, hB.2.1, hB.2.2, evtFilter_deadline hfb.2⟩⟩

/-- Concrete C10 markets: a reach cohort of two markets with inverted
prices. -/
def w10a : RScan.Market :=
  { question := "qa", yes_price := 2/5, no_price := 3/5, event_title := "",
    threshold := some 100000, direction := "reach", deadline := "December 31, 2026" }

def w10b : RScan.Market :=
  { question := "qb", yes_price := 11/20, no_price := 9/20, event_title := "",
    threshold := some 120000, direction := "reach", deadline := "December 31, 2026" }

def w10arb : RScan.ArbOpportunity := RScan.mkInv w10a w10b

attribute [local semireducible] Rat.mul Rat.add Rat.sub Rat.inv Rat.ofScientific in
/-- Witness for C10, instantiated at the concrete reach cohort whose
inversion finding is actually emitted. -/
theorem c10_untruthy_markets_excluded_witness :
    memberOk w10arb.market_a ∧ memberOk w10arb.market_b :=
  c10_untruthy_markets_excluded [w10a, w10b] w10arb (by decide)

/-- Concrete C5 monotonicity cohort: two `above` entries with inverted
odds (spread 0.10). -/
def w5ms : List SScan.RawSM :=
  [⟨some "60,000", "q1", some (2/5), some 2000, some 0, "m1"⟩,
   ⟨some "70,000", "q2", some (1/2), some 2000, some 0, "m2"⟩]

def w5e1 : SScan.MEntry := ⟨60000, 2/5, "m1", "q1", 2000, 0⟩

def w5e2 : SScan.MEntry := ⟨70000, 1/2, "m2", "q2", 2000, 0⟩

def w5f : SScan.Finding := SScan.monoFinding "above" "E" w5e1 w5e2

attribute [local semireducible] Rat.mul Rat.add Rat.sub Rat.inv Rat.ofScientific in
/-- Witness for C5, instantiated at the concrete cohort: its finding gets
severity `HIGH` (spread 0.10 > 0.02). -/
theorem c5_severity_rule_witness :
    ((w5f.severity = "HIGH" ↔ 1/50 < SScan.spreadVal w5f)
     ∧ (w5f.severity = "MEDIUM"
         ↔ 1/200 < SScan.spreadVal w5f ∧ SScan.spreadVal w5f ≤ 1/50))
    ∧ w5f.severity = "HIGH" :=
  ⟨c5_severity_rule.1 w5ms "E" 1000 [w5f] (by decide) w5f (by decide), by decide⟩

attribute [local semireducible] Rat.mul Rat.add Rat.sub Rat.inv Rat.ofScientific in
/-- Witness for C7, instantiated at the 0.1501 divergence pair whose
finding is actually emitted. -/
theorem c7_cross_date_info_witness :
    (SScan.cdFinding 70000 cdE1 cdE21501).severity = "INFO" :=
  c7_cross_date_info.1 70000 [cdE1, cdE21501] (SScan.cdFinding 70000 cdE1 cdE21501)
    (by decide)

/-! Evaluation checks: the embedded parsers on concrete inputs, mirroring
the behaviour of the source regexes on the same strings. -/

section EvalChecks
open SScan

attribute [local semireducible] Rat.mul Rat.add Rat.sub Rat.inv Rat.ofScientific in
example : extract_strike (some "↑ 75,000") (some "q") = .ok ("above", .num 75000) := by decide

attribute [local semireducible] Rat.mul Rat.add Rat.sub Rat.inv Rat.ofScientific in
example : extract_strike (some "↓ 60,000") (some "q") = .ok ("below", .num 60000) := by decide

example : extract_strike (some "58,000") none = .ok ("above", .num 58000) := by decide

example : extract_strike (some ">76,000") none = .ok ("above", .num 76000) := by decide

example : extract_strike (some "60,000-62,000") none = .ok ("range", .rng 60000 62000) := by decide

example : extract_strike (some ",") (some "x") = .error () := by decide

example : extract_strike none (some "Will Bitcoin go above $76,000 today?") = .ok ("above", .num 76000) := by decide

example : extract_strike none (some "Will Bitcoin reach $150,000?") = .ok ("above", .num 150000) := by decide

example : extract_strike none (some "Will Bitcoin dip to $45,000?") = .ok ("below", .num 45000) := by decide

example : extract_strike none (some "nothing here") = .ok ("unknown", .nostrike) := by decide

example : extract_strike none none = .ok ("unknown", .nostrike) := by decide

example : extract_strike (some "  58,000  ") none = .ok ("above", .num 58000) := by decide

end EvalChecks

section EvalChecksR
open RScan

attribute [local semireducible] Rat.mul Rat.add Rat.sub Rat.inv Rat.ofScientific in
example : parse_price "120,000" = some 120000 := by decide

attribute [local semireducible] Rat.mul Rat.add Rat.sub Rat.inv Rat.ofScientific in
example : parse_price "150k" = some 150000 := by decide

example : parse_price "," = none := by decide

example : searchPos tryReachHitAt "will bitcoin reach $120,000 by december 31, 2026?".data
    = some "120,000".data := by decide

example : searchPos tryReachHitAt "will bitcoin hit $150k by march 31, 2026?".data
    = some "150k".data := by decide

example : extractDeadline "Will Bitcoin reach $120,000 by December 31, 2026?"
    = "December 31, 2026" := by decide

example : extractDeadline "by  2026" = "2026" := by decide

example : extractDeadline "standby 2026 ok" = "" := by decide

example : extractDeadline "by March 2026 or December 2027?" = "March 2026 or December 2027" := by
  decide

example : extractDeadline "xx by  x12345 yy" = "x12345" := by decide

example : parse_deadline "December 31, 2026" = some ⟨2026, 12, 31⟩ := by decide

example : parse_deadline "december 31 2026" = some ⟨2026, 12, 31⟩ := by decide

example : parse_deadline "Dec 31, 2026" = some ⟨2026, 12, 31⟩ := by decide

example : parse_deadline "February 29, 2025" = none := by decide

example : parse_deadline "February 29, 2024" = some ⟨2024, 2, 29⟩ := by decide

example : parse_deadline " March 4, 2026 " = some ⟨2026, 3, 4⟩ := by decide

example : parse_deadline "late March 4, 2026 maybe" = some ⟨2026, 3, 4⟩ := by decide

example : parse_deadline "March 004, 2026" = none := by decide

example : parse_deadline "2026" = none := by decide

example : parse_deadline "March 31,2026" = none := by decide

attribute [local semireducible] Rat.mul Rat.add Rat.sub Rat.inv Rat.ofScientific in
example :
    parse_market { question := "Will Bitcoin reach $120,000 by December 31, 2026?",
                   outcomePrices := [some 0.55, some 0.45], event_title := "E" }
      = some { question := "Will Bitcoin reach $120,000 by December 31, 2026?",
               yes_price := 0.55, no_price := 0.45, event_title := "E",
               threshold := some 120000, direction := "reach",
               deadline := "December 31, 2026" } := by decide

attribute [local semireducible] Rat.mul Rat.add Rat.sub Rat.inv Rat.ofScientific in
example :
    parse_market { question := "q", outcomePrices := [some 1, some 0], event_title := "E" }
      = none := by decide

attribute [local semireducible] Rat.mul Rat.add Rat.sub Rat.inv Rat.ofScientific in
example :
    (parse_market { question := "q", outcomePrices := [some 1, some 0.5],
                    event_title := "E" }).map Market.yes_price = some 1 := by decide

end EvalChecksR
